import Mathlib

/-!
# Verification of `sgr_agent_core/services/mcp_service.py`

Shallow embedding of the MCP tool-builder core (`MCP2ToolConverter`):
the name normalizer `_to_CamelCase` and the orchestrator
`build_tools_from_mcp`, together with proofs of the specified
properties.

Characters are modelled exactly on the ASCII range (Lean's
`Char.toUpper`/`Char.toLower`/`Char.isAlpha` agree with CPython's
case mappings there); the operation names handled by this service are
ASCII identifiers.
-/

namespace MCPService

/-- One pass of Python's `str.title()` over a character list.  The flag
records whether the previous character was cased (an ASCII letter):
a cased character is uppercased when the previous character was not
cased and lowercased otherwise; uncased characters pass through and
reset the flag. -/
def pyTitleAux : Bool → List Char → List Char
  | _, [] => []
  | prevCased, c :: cs =>
    if c.isAlpha then
      (if prevCased then c.toLower else c.toUpper) :: pyTitleAux true cs
    else
      c :: pyTitleAux false cs

/-- Python's `str.title()` on the ASCII model. -/
def pyTitle (s : String) : String := String.mk (pyTitleAux false s.data)

/-- `name.replace("_", " ")`, characterwise (the pattern is a single
character, so Python's substring replace is a character map here). -/
def replUnd (c : Char) : Char := if c = '_' then ' ' else c

/-- `MCP2ToolConverter._to_CamelCase`:
`name.replace("_", " ").title().replace(" ", "")`. -/
def to_CamelCase (name : String) : String :=
  String.mk ((pyTitleAux false (name.data.map replUnd)).filter (fun c => c ≠ ' '))

/-- Word separators named by the specification: underscore and space. -/
def isSepCh (c : Char) : Bool := c = '_' || c = ' '

/-- Splitter core: returns the first segment (run up to the first
separator) paired with the remaining segments. Empty segments are kept,
mirroring a split on every separator occurrence. -/
def splitCharsCore (isSep : Char → Bool) : List Char → List Char × List (List Char)
  | [] => ([], [])
  | c :: cs =>
    let r := splitCharsCore isSep cs
    if isSep c then ([], r.1 :: r.2) else (c :: r.1, r.2)

/-- Split a character list on separators, keeping empty segments. -/
def splitChars (isSep : Char → Bool) (l : List Char) : List (List Char) :=
  (splitCharsCore isSep l).1 :: (splitCharsCore isSep l).2

/-- Title-case one segment: first character uppercased, the rest
lowercased. -/
def capSeg : List Char → List Char
  | [] => []
  | c :: cs => c.toUpper :: cs.map Char.toLower

/-- The specification's description of the normalizer (§4.1): split on
underscores and spaces, title-case each segment, concatenate without
separators. -/
def specNormalize (s : String) : String :=
  String.mk (((splitChars isSepCh s.data).map capSeg).flatten)

/-- The expected normalization of a segment list when the flag says the
first segment continues a word already begun (its letters are all
lowercased) versus starts fresh (it is title-cased). -/
def titledTail : Bool → List (List Char) → List Char
  | _, [] => []
  | b, seg :: rest =>
    (if b then seg.map Char.toLower else capSeg seg) ++ (rest.map capSeg).flatten

/-- An input that is already in canonical single-segment form: a
nonempty word with an uppercase first letter and lowercase rest. -/
def isCapitalizedWord (s : String) : Bool :=
  match s.data with
  | [] => false
  | c :: cs => c.isUpper && cs.all Char.isLower

/-- A structured-input schema document, modelled as an insertion-ordered
association list from keys to opaque (string-modelled) values.  The only
operation the service performs on a schema is setting its `"title"`
entry, so nested values stay opaque. -/
abbrev Schema := List (String × String)

/-- Python `d[k] = v` on an insertion-ordered dict: overwrite in place
when the key is present, append otherwise. -/
def setKey : Schema → String → String → Schema
  | [], k, v => [(k, v)]
  | (k', v') :: rest, k, v =>
    if k' = k then (k, v) :: rest else (k', v') :: setKey rest k v

/-- Dict lookup. -/
def getKey : Schema → String → Option String
  | [], _ => none
  | (k', v') :: rest, k => if k' = k then some v' else getKey rest k

/-- One operation descriptor as enumerated by `client.list_tools()`:
name, optional structured-input schema, optional description. -/
structure MCPToolDesc where
  name : String
  inputSchema : Option Schema
  description : Option String
  deriving Repr, DecidableEq

/-- Python truthiness of `t.inputSchema` as tested on line 36: falsy
when the schema is `None` or an empty document. -/
def schemaFalsy : Option Schema → Bool
  | none => true
  | some sch => sch.isEmpty

/-- The exceptions that can cross `build_tools_from_mcp`'s boundary.
The specification names the propagated setup failure `BuildSetupError`;
the code re-raises the underlying cause itself (bare `raise`), so the
model propagates the cause directly. -/
inductive MCPError where
  | connectionFailure : String → MCPError
  | enumerationFailure : String → MCPError
  | assemblyFailure : String → MCPError
  deriving Repr, DecidableEq

/-- Line 41: `t.inputSchema["title"] = cls._to_CamelCase(t.name)` —
the canonical identifier is injected into the schema before
conversion. -/
def injectTitle (sch : Schema) (name : String) : Schema :=
  setKey sch "title" (to_CamelCase name)

/-- Python `t.description or ""` (lines 48 and 51). -/
def descOr : Option String → String
  | none => ""
  | some s => s

/-- The dynamically created tool class (lines 47–54): class name,
base pydantic model, docstring, verbatim remote `tool_name`,
`description`, and the stashed shared client (identified by the id of
the one client this build call creates). -/
structure ToolCls where
  clsName : String
  pdModel : Schema
  doc : String
  tool_name : String
  description : String
  clientId : Nat
  deriving Repr, DecidableEq

/-- The environment of one `build_tools_from_mcp` call: the provider
configuration (`config.mcpServers` keys) and oracles fixing the
behaviour of the external collaborators — fastmcp's
`__aenter__`/`list_tools` (open/enumerate), jambo's
`SchemaConverter.build`, and pydantic's `create_model` (`none` models
normal return, `some e` models a raised exception). -/
structure MCPEnv where
  servers : List String
  openResult : Option MCPError
  listResult : Except MCPError (List MCPToolDesc)
  convert : Schema → Except String Schema
  createModel : String → Schema → String → Option MCPError

/-- The assembled tool class for operation `t` whose conversion produced
`pd` (lines 47–55). -/
def mkToolCls (t : MCPToolDesc) (pd : Schema) : ToolCls :=
  { clsName := "MCP" ++ to_CamelCase t.name
    pdModel := pd
    doc := descOr t.description
    tool_name := t.name
    description := descOr t.description
    clientId := 0 }

/-- Lines 35–56: the per-operation loop.  An operation with a falsy name
or schema is skipped (lines 36–38); a schema-conversion failure is
caught and skipped (lines 40–45); a `create_model` failure has no local
handler and aborts the loop (lines 47–49). -/
def buildLoop (env : MCPEnv) : List MCPToolDesc → Except MCPError (List ToolCls)
  | [] => .ok []
  | t :: rest =>
    if t.name = "" then buildLoop env rest
    else
      match t.inputSchema with
      | none => buildLoop env rest
      | some sch =>
        if sch.isEmpty then buildLoop env rest
        else
          match env.convert (injectTitle sch t.name) with
          | .error _ => buildLoop env rest
          | .ok pd =>
            match env.createModel ("MCP" ++ to_CamelCase t.name) pd (descOr t.description) with
            | some e => .error e
            | none =>
              match buildLoop env rest with
              | .error e => .error e
              | .ok tools => .ok (mkToolCls t pd :: tools)

deriving instance DecidableEq for Except

/-- Everything a caller can observe of one `build_tools_from_mcp` call:
its return value or raised exception, whether a client was constructed,
and how often `__aenter__` and `__aexit__` ran on it. -/
structure BuildOutcome where
  result : Except MCPError (List ToolCls)
  clientCreated : Bool
  opens : Nat
  closes : Nat
  deriving Repr, DecidableEq

/-- `MCP2ToolConverter.build_tools_from_mcp` (lines 17–66).  The empty
configuration short-circuits before a client exists (lines 22–23);
`__aenter__` runs outside the `try` (line 30), so an open failure
propagates without `__aexit__`; a failure inside the `try` (enumeration
or assembly) closes the client once and re-raises (lines 59–62); on
success the client is deliberately left open (lines 64–66). -/
def build_tools_from_mcp (env : MCPEnv) : BuildOutcome :=
  if env.servers.isEmpty then
    { result := .ok [], clientCreated := false, opens := 0, closes := 0 }
  else
    match env.openResult with
    | some e =>
      { result := .error e, clientCreated := true, opens := 1, closes := 0 }
    | none =>
      match env.listResult with
      | .error e =>
        { result := .error e, clientCreated := true, opens := 1, closes := 1 }
      | .ok mcp_tools =>
        match buildLoop env mcp_tools with
        | .error e =>
          { result := .error e, clientCreated := true, opens := 1, closes := 1 }
        | .ok tools =>
          { result := .ok tools, clientCreated := true, opens := 1, closes := 0 }

/-- The code's skip conditions for one operation (lines 36–45): falsy
name, falsy schema, or failing schema conversion. -/
def skipsOp (env : MCPEnv) (t : MCPToolDesc) : Bool :=
  t.name = "" || schemaFalsy t.inputSchema ||
    (match t.inputSchema with
     | none => true
     | some sch =>
       match env.convert (injectTitle sch t.name) with
       | .error _ => true
       | .ok _ => false)

/-- The pydantic model produced for a surviving operation (the `.ok`
payload of its schema conversion). -/
def convertedModel (env : MCPEnv) (t : MCPToolDesc) : Schema :=
  match t.inputSchema with
  | none => []
  | some sch =>
    match env.convert (injectTitle sch t.name) with
    | .error _ => []
    | .ok pd => pd

/-- The tool class built for a surviving operation. -/
def toolOf (env : MCPEnv) (t : MCPToolDesc) : ToolCls :=
  mkToolCls t (convertedModel env t)

/-- The `create_model` call for `t` returns normally in `env`. -/
def assembles (env : MCPEnv) (t : MCPToolDesc) : Prop :=
  env.createModel ("MCP" ++ to_CamelCase t.name) (convertedModel env t)
    (descOr t.description) = none

/-- A well-formed operation descriptor used in concrete instances . -/
def breadOp : MCPToolDesc :=
  { name := "find_bread", inputSchema := some [("type", "object")],
    description := some "find bread" }

/-- An unusable operation descriptor (schema absent). -/
def badOp : MCPToolDesc :=
  { name := "bad_tool", inputSchema := none, description := none }

/-- A benign environment whose external oracles all succeed and which
enumerates `ops`. -/
def okEnv (ops : List MCPToolDesc) : MCPEnv :=
  { servers := ["vkusvill"], openResult := none, listResult := .ok ops,
    convert := fun sch => .ok sch, createModel := fun _ _ _ => none }

/-- An environment whose open handshake fails. -/
def openFailEnv : MCPEnv :=
  { servers := ["vkusvill"], openResult := some (.connectionFailure "refused"),
    listResult := .ok [], convert := fun sch => .ok sch,
    createModel := fun _ _ _ => none }

/-- An environment whose enumeration fails after a successful open. -/
def listFailEnv : MCPEnv :=
  { servers := ["vkusvill"], openResult := none,
    listResult := .error (.enumerationFailure "timeout"),
    convert := fun sch => .ok sch, createModel := fun _ _ _ => none }

/-- An environment with nothing configured. -/
def emptyEnv : MCPEnv :=
  { servers := [], openResult := none, listResult := .ok [],
    convert := fun sch => .ok sch, createModel := fun _ _ _ => none }

/-- Connection lifecycle states named by the specification. -/
inductive HandleState where
  | unopened
  | opened
  | closed
  deriving Repr, DecidableEq

/-- Modelled from the spec: the connection's close routine (§4.3) —
fastmcp's `Client.__aexit__` is not part of this repository.  Per the
spec, close is idempotent, releases the session, and never raises, even
on a handle that was never fully opened.  The Boolean reports whether
the call raised. -/
def closeHandle : HandleState → HandleState × Bool
  | _ => (HandleState.closed, false)

/-- An operation with a present-but-empty schema document. -/
def emptySchemaOp : MCPToolDesc :=
  { name := "good_name", inputSchema := some [], description := none }

/-- How many of the enumerated operations this run skips. -/
def skipCount (env : MCPEnv) (ops : List MCPToolDesc) : Nat :=
  (ops.filter (fun t => skipsOp env t)).length

/-- An environment in which every `create_model` call raises. -/
def assemblyFailEnv : MCPEnv :=
  { servers := ["vkusvill"], openResult := none,
    listResult := .ok [badOp, breadOp],
    convert := fun sch => .ok sch,
    createModel := fun _ _ _ => some (.assemblyFailure "create_model") }

theorem char_isAlpha_toNat {c : Char} (h : c.isAlpha = true) :
    (65 ≤ c.toNat ∧ c.toNat ≤ 90) ∨ (97 ≤ c.toNat ∧ c.toNat ≤ 122) := by
  simp only [Char.isAlpha, Char.isUpper, Char.isLower, Bool.or_eq_true,
    Bool.and_eq_true, decide_eq_true_eq] at h
  rcases h with ⟨h1, h2⟩ | ⟨h1, h2⟩
  · exact Or.inl ⟨h1, h2⟩
  · exact Or.inr ⟨h1, h2⟩

theorem char_toNat_ofNat {n : Nat} (h : n < 55296) : (Char.ofNat n).toNat = n := by
  rw [Char.ofNat, dif_pos (Or.inl h)]
  rfl

theorem char_toUpper_toNat {c : Char} :
    c.toUpper.toNat = if 97 ≤ c.toNat ∧ c.toNat ≤ 122 then c.toNat - 32 else c.toNat := by
  rw [Char.toUpper]
  split
  · rw [char_toNat_ofNat (by omega)]
  · rfl

theorem char_toLower_toNat {c : Char} :
    c.toLower.toNat = if 65 ≤ c.toNat ∧ c.toNat ≤ 90 then c.toNat + 32 else c.toNat := by
  rw [Char.toLower]
  split
  · rw [char_toNat_ofNat (by omega)]
  · rfl

theorem char_toUpper_ne_space {c : Char} (h : c.isAlpha = true) : c.toUpper ≠ ' ' := by
  intro he
  have h2 : c.toUpper.toNat = 32 := by rw [he]; rfl
  rw [char_toUpper_toNat] at h2
  have := char_isAlpha_toNat h
  split at h2 <;> omega

theorem char_toLower_ne_space {c : Char} (h : c.isAlpha = true) : c.toLower ≠ ' ' := by
  intro he
  have h2 : c.toLower.toNat = 32 := by rw [he]; rfl
  rw [char_toLower_toNat] at h2
  have := char_isAlpha_toNat h
  split at h2 <;> omega

theorem char_eq_of_toNat_eq {a b : Char} (h : a.toNat = b.toNat) : a = b :=
  Char.ext (UInt32.eq_of_toBitVec_eq (BitVec.eq_of_toNat_eq h))

theorem char_toUpper_of_isUpper {c : Char} (h : c.isUpper = true) : c.toUpper = c := by
  have hb : 65 ≤ c.toNat ∧ c.toNat ≤ 90 := by
    simp only [Char.isUpper, Bool.and_eq_true, decide_eq_true_eq] at h
    exact h
  apply char_eq_of_toNat_eq
  rw [char_toUpper_toNat, if_neg (by omega)]

theorem char_toLower_of_isLower {c : Char} (h : c.isLower = true) : c.toLower = c := by
  have hb : 97 ≤ c.toNat ∧ c.toNat ≤ 122 := by
    simp only [Char.isLower, Bool.and_eq_true, decide_eq_true_eq] at h
    exact h
  apply char_eq_of_toNat_eq
  rw [char_toLower_toNat, if_neg (by omega)]

theorem char_isAlpha_of_sep_false {c : Char} (hc : c.isAlpha = true) : isSepCh c = false := by
  have := char_isAlpha_toNat hc
  simp only [isSepCh, Bool.or_eq_false_iff, decide_eq_false_iff_not]
  constructor <;> rintro rfl <;> simp [Char.toNat, UInt32.size] at this

theorem char_alpha_ne_space {c : Char} (hc : c.isAlpha = true) : c ≠ ' ' := by
  have := char_isAlpha_toNat hc
  rintro rfl
  simp [Char.toNat, UInt32.size] at this

theorem replUnd_of_alpha {c : Char} (hc : c.isAlpha = true) : replUnd c = c := by
  have := char_isAlpha_toNat hc
  rw [replUnd, if_neg]
  rintro rfl
  simp [Char.toNat, UInt32.size] at this

theorem titledTail_false (segs : List (List Char)) :
    titledTail false segs = (segs.map capSeg).flatten := by
  cases segs with
  | nil => rfl
  | cons seg rest => simp [titledTail]

theorem sep_replUnd {c : Char} (h : isSepCh c = true) : replUnd c = ' ' := by
  simp only [isSepCh, Bool.or_eq_true, decide_eq_true_eq] at h
  rcases h with rfl | rfl <;> rfl

theorem sep_not_alpha {c : Char} (h : isSepCh c = true) : c.isAlpha = false := by
  cases halpha : c.isAlpha with
  | false => rfl
  | true => simp [char_isAlpha_of_sep_false halpha] at h

theorem pyTitle_filter_eq (l : List Char)
    (h : ∀ c ∈ l, c.isAlpha = true ∨ isSepCh c = true) (b : Bool) :
    (pyTitleAux b (l.map replUnd)).filter (fun c => c ≠ ' ') =
      titledTail b (splitChars isSepCh l) := by
  induction l generalizing b with
  | nil =>
    cases b <;> simp [pyTitleAux, splitChars, splitCharsCore, titledTail, capSeg]
  | cons c cs ih =>
    have hcs : ∀ x ∈ cs, x.isAlpha = true ∨ isSepCh x = true :=
      fun x hx => h x (List.mem_cons_of_mem _ hx)
    have hc := h c (List.mem_cons_self c cs)
    by_cases hsep : isSepCh c = true
    · have halpha : c.isAlpha = false := sep_not_alpha hsep
      have h1 : (c :: cs).map replUnd = ' ' :: cs.map replUnd := by
        simp [sep_replUnd hsep]
      rw [h1]
      have h2 : pyTitleAux b (' ' :: cs.map replUnd) =
          ' ' :: pyTitleAux false (cs.map replUnd) := by
        simp [pyTitleAux]
      rw [h2]
      have h3 : splitChars isSepCh (c :: cs) = [] :: splitChars isSepCh cs := by
        simp [splitChars, splitCharsCore, hsep]
      rw [h3]
      have h4 : titledTail b ([] :: splitChars isSepCh cs) =
          titledTail false (splitChars isSepCh cs) := by
        rw [titledTail_false, splitChars]
        cases b <;> simp [titledTail, capSeg]
      rw [h4, ← ih hcs false]
      simp
    · have halpha : c.isAlpha = true := by
        rcases hc with h' | h'
        · exact h'
        · exact absurd h' hsep
      have h1 : (c :: cs).map replUnd = c :: cs.map replUnd := by
        simp [replUnd_of_alpha halpha]
      rw [h1]
      have h2 : pyTitleAux b (c :: cs.map replUnd) =
          (if b then c.toLower else c.toUpper) :: pyTitleAux true (cs.map replUnd) := by
        simp [pyTitleAux, halpha]
      rw [h2]
      have hkeep : ((if b then c.toLower else c.toUpper) : Char) ≠ ' ' := by
        cases b
        · simpa using char_toUpper_ne_space halpha
        · simpa using char_toLower_ne_space halpha
      have h3 : splitChars isSepCh (c :: cs) =
          (c :: (splitCharsCore isSepCh cs).1) :: (splitCharsCore isSepCh cs).2 := by
        simp [splitChars, splitCharsCore, hsep]
      rw [h3]
      have h5 : ((if b then c.toLower else c.toUpper) ::
            pyTitleAux true (cs.map replUnd)).filter (fun x => x ≠ ' ') =
          (if b then c.toLower else c.toUpper) ::
            (pyTitleAux true (cs.map replUnd)).filter (fun x => x ≠ ' ') := by
        rw [List.filter_cons_of_pos (by simpa using hkeep)]
      rw [h5, ih hcs true]
      cases b <;>
        simp [titledTail, capSeg, splitChars]

theorem to_CamelCase_eq_specNormalize (s : String)
    (h : ∀ c ∈ s.data, c.isAlpha = true ∨ isSepCh c = true) :
    to_CamelCase s = specNormalize s := by
  unfold to_CamelCase specNormalize
  rw [pyTitle_filter_eq s.data h false, titledTail_false]

theorem char_isAlpha_of_isUpper {c : Char} (h : c.isUpper = true) : c.isAlpha = true := by
  simp [Char.isAlpha, h]

theorem char_isAlpha_of_isLower {c : Char} (h : c.isLower = true) : c.isAlpha = true := by
  simp [Char.isAlpha, h]

theorem pyTitleAux_true_of_lower {cs : List Char}
    (h : ∀ x ∈ cs, x.isLower = true) : pyTitleAux true cs = cs := by
  induction cs with
  | nil => rfl
  | cons x xs ih =>
    have hx := h x (List.mem_cons_self x xs)
    have hxs : ∀ y ∈ xs, y.isLower = true := fun y hy => h y (List.mem_cons_of_mem _ hy)
    simp [pyTitleAux, char_isAlpha_of_isLower hx, char_toLower_of_isLower hx, ih hxs]

theorem to_CamelCase_of_capitalized (s : String)
    (h : isCapitalizedWord s = true) : to_CamelCase s = s := by
  obtain ⟨l⟩ := s
  match hl : l with
  | [] => simp [isCapitalizedWord] at h
  | c :: cs =>
    simp only [isCapitalizedWord, hl, Bool.and_eq_true, List.all_eq_true] at h
    obtain ⟨hupper, hlower⟩ := h
    have hlower' : ∀ x ∈ cs, x.isLower = true := fun x hx => hlower x hx
    have halpha : ∀ x ∈ c :: cs, x.isAlpha = true := by
      intro x hx
      rcases List.mem_cons.mp hx with rfl | hx'
      · exact char_isAlpha_of_isUpper hupper
      · exact char_isAlpha_of_isLower (hlower' x hx')
    have hmap : ∀ l' : List Char, (∀ x ∈ l', x.isAlpha = true) → l'.map replUnd = l' := by
      intro l' h'
      induction l' with
      | nil => rfl
      | cons a as ihm =>
        simp only [List.map_cons, replUnd_of_alpha (h' a (List.mem_cons_self a as)),
          ihm (fun x hx => h' x (List.mem_cons_of_mem _ hx))]
    show String.mk ((pyTitleAux false ((c :: cs).map replUnd)).filter (fun x => x ≠ ' ')) = _
    rw [hmap _ halpha]
    have htitle : pyTitleAux false (c :: cs) = c :: cs := by
      simp [pyTitleAux, char_isAlpha_of_isUpper hupper, char_toUpper_of_isUpper hupper,
        pyTitleAux_true_of_lower hlower']
    rw [htitle]
    have hfilter : (c :: cs).filter (fun x => x ≠ ' ') = c :: cs := by
      rw [List.filter_eq_self]
      intro x hx
      simpa using char_alpha_ne_space (halpha x hx)
    rw [hfilter]

theorem buildLoop_eq_filter (env : MCPEnv) (ops : List MCPToolDesc)
    (h : ∀ t ∈ ops, skipsOp env t = false → assembles env t) :
    buildLoop env ops =
      .ok ((ops.filter (fun t => !skipsOp env t)).map (toolOf env)) := by
  induction ops with
  | nil => rfl
  | cons t rest ih =>
    have hrest : ∀ x ∈ rest, skipsOp env x = false → assembles env x :=
      fun x hx => h x (List.mem_cons_of_mem _ hx)
    have iht := ih hrest
    by_cases hn : t.name = ""
    · have hskip : skipsOp env t = true := by simp [skipsOp, hn]
      simp only [buildLoop, if_pos hn, iht, List.filter_cons, hskip]
      rfl
    · match hs : t.inputSchema with
      | none =>
        have hskip : skipsOp env t = true := by simp [skipsOp, schemaFalsy, hs]
        simp only [buildLoop, if_neg hn, hs, iht, List.filter_cons, hskip]
        rfl
      | some sch =>
        by_cases he : sch.isEmpty
        · have hskip : skipsOp env t = true := by simp [skipsOp, schemaFalsy, hs, he]
          simp only [buildLoop, if_neg hn, hs, if_pos he, iht, List.filter_cons, hskip]
          rfl
        · match hcv : env.convert (injectTitle sch t.name) with
          | .error msg =>
            have hskip : skipsOp env t = true := by
              simp [skipsOp, schemaFalsy, hs, he, hcv]
            simp only [buildLoop, if_neg hn, hs, if_neg he, hcv, iht,
              List.filter_cons, hskip]
            rfl
          | .ok pd =>
            have hskip : skipsOp env t = false := by
              simp [skipsOp, schemaFalsy, hs, he, hcv, hn]
            have hpd : convertedModel env t = pd := by
              simp [convertedModel, hs, hcv]
            have hasm := h t (List.mem_cons_self t rest) hskip
            rw [assembles, hpd] at hasm
            simp only [buildLoop, if_neg hn, hs, if_neg he, hcv, hasm, iht,
              List.filter_cons, hskip]
            simp [toolOf, hpd]

theorem skipsOp_false_inv {env : MCPEnv} {t : MCPToolDesc}
    (h : skipsOp env t = false) :
    t.name ≠ "" ∧ ∃ sch pd, t.inputSchema = some sch ∧ sch.isEmpty = false ∧
      env.convert (injectTitle sch t.name) = .ok pd ∧ convertedModel env t = pd := by
  match hs : t.inputSchema with
  | none => simp [skipsOp, hs, schemaFalsy] at h
  | some sch =>
    simp only [skipsOp, hs, schemaFalsy, Bool.or_eq_false_iff,
      decide_eq_false_iff_not] at h
    obtain ⟨⟨hn, hf⟩, hm⟩ := h
    match hcv : env.convert (injectTitle sch t.name) with
    | .error msg => rw [hcv] at hm; simp at hm
    | .ok pd =>
      exact ⟨hn, sch, pd, rfl, hf, hcv, by simp [convertedModel, hs, hcv]⟩

theorem buildLoop_cons_skip (env : MCPEnv) {t : MCPToolDesc}
    (h : skipsOp env t = true) (rest : List MCPToolDesc) :
    buildLoop env (t :: rest) = buildLoop env rest := by
  by_cases hn : t.name = ""
  · simp [buildLoop, hn]
  · match hs : t.inputSchema with
    | none => simp [buildLoop, hn, hs]
    | some sch =>
      by_cases he : sch.isEmpty
      · simp [buildLoop, hn, hs, he]
      · match hcv : env.convert (injectTitle sch t.name) with
        | .error msg => simp [buildLoop, hn, hs, he, hcv]
        | .ok pd =>
          exfalso
          have : skipsOp env t = false := by
            simp [skipsOp, hn, schemaFalsy, hs, he, hcv]
          rw [h] at this
          exact Bool.noConfusion this

theorem buildLoop_cons_keep (env : MCPEnv) {t : MCPToolDesc}
    (h : skipsOp env t = false) (ha : assembles env t) (rest : List MCPToolDesc) :
    buildLoop env (t :: rest) =
      (buildLoop env rest).map (fun tools => toolOf env t :: tools) := by
  obtain ⟨hn, sch, pd, hs, he, hcv, hpd⟩ := skipsOp_false_inv h
  rw [assembles, hpd] at ha
  simp only [buildLoop, if_neg hn, hs, he, hcv, ha]
  match hrest : buildLoop env rest with
  | .error e => simp [Except.map]
  | .ok tools => simp [Except.map, toolOf, hpd]

theorem buildLoop_cons_abort (env : MCPEnv) {t : MCPToolDesc} {e : MCPError}
    (h : skipsOp env t = false)
    (ha : env.createModel ("MCP" ++ to_CamelCase t.name) (convertedModel env t)
      (descOr t.description) = some e) (rest : List MCPToolDesc) :
    buildLoop env (t :: rest) = .error e := by
  obtain ⟨hn, sch, pd, hs, he, hcv, hpd⟩ := skipsOp_false_inv h
  rw [hpd] at ha
  simp only [buildLoop, if_neg hn, hs, he, hcv, ha]
  rfl

theorem buildLoop_abort_of_mem (env : MCPEnv) (pre : List MCPToolDesc)
    {t : MCPToolDesc} {e : MCPError} (rest : List MCPToolDesc)
    (hpre : ∀ x ∈ pre, skipsOp env x = false → assembles env x)
    (ht : skipsOp env t = false)
    (ha : env.createModel ("MCP" ++ to_CamelCase t.name) (convertedModel env t)
      (descOr t.description) = some e) :
    buildLoop env (pre ++ t :: rest) = .error e := by
  induction pre with
  | nil => exact buildLoop_cons_abort env ht ha rest
  | cons p pre' ih =>
    have hpre' : ∀ x ∈ pre', skipsOp env x = false → assembles env x :=
      fun x hx => hpre x (List.mem_cons_of_mem _ hx)
    have htail := ih hpre'
    by_cases hp : skipsOp env p = true
    · rw [List.cons_append, buildLoop_cons_skip env hp, htail]
    · have hp' : skipsOp env p = false := by
        cases hb : skipsOp env p
        · rfl
        · exact absurd hb hp
      rw [List.cons_append,
        buildLoop_cons_keep env hp' (hpre p (List.mem_cons_self p pre') hp'), htail]
      rfl

theorem servers_isEmpty_false {env : MCPEnv} (hs : env.servers ≠ []) :
    env.servers.isEmpty = false := by
  cases h : env.servers with
  | nil => exact absurd h hs
  | cons a l => rfl

theorem build_of_setup_ok (env : MCPEnv) (ops : List MCPToolDesc)
    (hs : env.servers ≠ []) (ho : env.openResult = none)
    (hl : env.listResult = .ok ops) :
    build_tools_from_mcp env =
      match buildLoop env ops with
      | .error e => { result := .error e, clientCreated := true, opens := 1, closes := 1 }
      | .ok tools => { result := .ok tools, clientCreated := true, opens := 1, closes := 0 } := by
  rw [build_tools_from_mcp, if_neg (by simp [servers_isEmpty_false hs]), ho, hl]

/-- C2, counterexample: when opening the connection fails, the code
propagates the error while the close routine is never invoked — the
close count observed by the caller is 0, not the claimed 1
(`await client.__aenter__()` on line 30 sits outside the `try` block,
so the `except` handler on lines 59–62 never runs). -/
theorem open_failure_skips_close :
    (build_tools_from_mcp openFailEnv).result =
      .error (.connectionFailure "refused") ∧
    (build_tools_from_mcp openFailEnv).closes = 0 := by
  exact ⟨rfl, rfl⟩

/-- C2 (amended): if opening the connection fails,
`build_tools_from_mcp` propagates the connection error to the caller
and the connection's close routine is invoked zero times (not once);
the close routine itself (modelled from the spec) is idempotent — a
second close never raises. -/
theorem open_failure_propagates_without_close (env : MCPEnv) (e : MCPError)
    (hs : env.servers ≠ []) (ho : env.openResult = some e) :
    build_tools_from_mcp env =
      { result := .error e, clientCreated := true, opens := 1, closes := 0 } ∧
    (∀ st : HandleState, (closeHandle (closeHandle st).1).2 = false) := by
  constructor
  · rw [build_tools_from_mcp, if_neg (by simp [servers_isEmpty_false hs]), ho]
  · intro st
    rfl

theorem open_failure_propagates_without_close_witness :
    build_tools_from_mcp openFailEnv =
      { result := .error (.connectionFailure "refused"), clientCreated := true,
        opens := 1, closes := 0 } ∧
    (closeHandle (closeHandle HandleState.unopened).1).2 = false := by
  have h := open_failure_propagates_without_close openFailEnv
    (.connectionFailure "refused") (by decide) rfl
  exact ⟨h.1, h.2 HandleState.unopened⟩

/-- C3: if enumeration (`client.list_tools()`) fails after a successful
open, the client is closed (exactly one `__aexit__`) and the underlying
enumeration error is re-raised to the caller — the connection does not
survive the call.  The specification's `BuildSetupError` is modelled as
the propagated underlying cause, since the code re-raises it bare
(lines 59–62). -/
theorem enumeration_failure_closes_connection (env : MCPEnv) (e : MCPError)
    (hs : env.servers ≠ []) (ho : env.openResult = none)
    (hl : env.listResult = .error e) :
    build_tools_from_mcp env =
      { result := .error e, clientCreated := true, opens := 1, closes := 1 } := by
  rw [build_tools_from_mcp, if_neg (by simp [servers_isEmpty_false hs]), ho, hl]

theorem enumeration_failure_closes_connection_witness :
    build_tools_from_mcp listFailEnv =
      { result := .error (.enumerationFailure "timeout"), clientCreated := true,
        opens := 1, closes := 1 } :=
  enumeration_failure_closes_connection listFailEnv _ (by decide) rfl rfl

/-- C4: with zero configured servers, `build_tools_from_mcp` returns an
empty result immediately: no client is constructed, and the
connection-opening counter stays at zero (lines 22–23 short-circuit
before `Client(config)` on line 27). -/
theorem empty_config_short_circuits (env : MCPEnv) (h : env.servers = []) :
    build_tools_from_mcp env =
      { result := .ok [], clientCreated := false, opens := 0, closes := 0 } := by
  rw [build_tools_from_mcp, if_pos (by simp [h])]

theorem empty_config_short_circuits_witness :
    build_tools_from_mcp emptyEnv =
      { result := .ok [], clientCreated := false, opens := 0, closes := 0 } :=
  empty_config_short_circuits emptyEnv rfl

/-- C1, counterexample: the skip set is not exactly {empty name, absent
schema, failed conversion}.  `emptySchemaOp` has a nonempty name, a
present input schema, and an environment whose converter accepts every
document (so its conversion would succeed), yet build returns no tool
for it: the truthiness test `not t.inputSchema` on line 36 also rejects
a present-but-empty schema dict. -/
theorem build_skips_empty_schema_operation :
    emptySchemaOp.name ≠ "" ∧ emptySchemaOp.inputSchema ≠ none ∧
    (okEnv [emptySchemaOp]).convert (injectTitle [] emptySchemaOp.name) =
      .ok (injectTitle [] emptySchemaOp.name) ∧
    (build_tools_from_mcp (okEnv [emptySchemaOp])).result = .ok [] := by
  exact ⟨by decide, by decide, rfl, by decide⟩

/-- C1 (amended): for every enumerated batch, build skips exactly those
operations whose name is empty, whose input schema is absent or empty
(Python falsiness), or whose schema conversion fails — logging and
continuing, so no conversion error propagates; the result contains
exactly the surviving operations' tools in the provider's original
relative order, and the shared connection remains open (zero closes)
after build returns.  The hypothesis `hasm` restricts to batches where
tool-class assembly itself returns normally, the situation C1 speaks
about (an assembly exception is C7's subject). -/
theorem build_batch_isolation (env : MCPEnv) (ops : List MCPToolDesc)
    (hs : env.servers ≠ []) (ho : env.openResult = none)
    (hl : env.listResult = .ok ops)
    (hasm : ∀ t ∈ ops, skipsOp env t = false → assembles env t) :
    build_tools_from_mcp env =
      { result := .ok ((ops.filter (fun t => !skipsOp env t)).map (toolOf env)),
        clientCreated := true, opens := 1, closes := 0 } := by
  rw [build_of_setup_ok env ops hs ho hl, buildLoop_eq_filter env ops hasm]

theorem build_batch_isolation_witness :
    build_tools_from_mcp (okEnv [breadOp, badOp]) =
      { result := .ok (([breadOp, badOp].filter
            (fun t => !skipsOp (okEnv [breadOp, badOp]) t)).map
          (toolOf (okEnv [breadOp, badOp]))),
        clientCreated := true, opens := 1, closes := 0 } :=
  build_batch_isolation (okEnv [breadOp, badOp]) [breadOp, badOp]
    (by decide) rfl rfl (fun t _ _ => rfl)

theorem length_filter_not_add {α : Type} (p : α → Bool) (l : List α) :
    (l.filter (fun a => !p a)).length + (l.filter p).length = l.length := by
  induction l with
  | nil => rfl
  | cons a l ih =>
    cases hp : p a <;> simp [List.filter_cons, hp] <;> omega

/-- C5, counterexample: the value returned by build does NOT carry a
skip count.  Two batches with different numbers of invalid operations
(0 and 1) produce identical return values, so no caller can observe the
skip count from the returned value alone — the code returns the bare
`tools` list (line 66) and only logs skips. -/
theorem skip_count_not_in_return_value :
    (build_tools_from_mcp (okEnv [breadOp])).result =
      (build_tools_from_mcp (okEnv [breadOp, badOp])).result ∧
    skipCount (okEnv [breadOp]) [breadOp] = 0 ∧
    skipCount (okEnv [breadOp, badOp]) [breadOp, badOp] = 1 := by
  exact ⟨by decide, by decide, by decide⟩

/-- C5 (amended): build's return value is only the ordered sequence of
successfully built tools; the number of skipped operations is not part
of it (it is observable in logs alone) and equals the batch size minus
the number of tools returned. -/
theorem build_result_is_bare_tool_list (env : MCPEnv) (ops : List MCPToolDesc)
    (hs : env.servers ≠ []) (ho : env.openResult = none)
    (hl : env.listResult = .ok ops)
    (hasm : ∀ t ∈ ops, skipsOp env t = false → assembles env t) :
    (build_tools_from_mcp env).result =
      .ok ((ops.filter (fun t => !skipsOp env t)).map (toolOf env)) ∧
    ((ops.filter (fun t => !skipsOp env t)).map (toolOf env)).length
        + skipCount env ops = ops.length := by
  constructor
  · rw [build_of_setup_ok env ops hs ho hl, buildLoop_eq_filter env ops hasm]
  · rw [List.length_map, skipCount]
    exact length_filter_not_add (fun t => skipsOp env t) ops

theorem build_result_is_bare_tool_list_witness :
    (build_tools_from_mcp (okEnv [breadOp, badOp])).result =
      .ok (([breadOp, badOp].filter
          (fun t => !skipsOp (okEnv [breadOp, badOp]) t)).map
        (toolOf (okEnv [breadOp, badOp]))) ∧
    (([breadOp, badOp].filter
          (fun t => !skipsOp (okEnv [breadOp, badOp]) t)).map
        (toolOf (okEnv [breadOp, badOp]))).length
      + skipCount (okEnv [breadOp, badOp]) [breadOp, badOp] = 2 :=
  build_result_is_bare_tool_list (okEnv [breadOp, badOp]) [breadOp, badOp]
    (by decide) rfl rfl (fun t _ _ => rfl)

/-- C6: every successfully built tool class carries the original remote
name verbatim in `tool_name` (line 50 — never the canonical
identifier), an empty-string-defaulted description (lines 48 and 51),
and the one shared client of the call (line 53; id 0 names the single
client this build constructs, so all tools reference the identical
handle). -/
theorem tools_bind_verbatim_name_and_shared_client (env : MCPEnv)
    (ops : List MCPToolDesc)
    (hs : env.servers ≠ []) (ho : env.openResult = none)
    (hl : env.listResult = .ok ops)
    (hasm : ∀ t ∈ ops, skipsOp env t = false → assembles env t) :
    ∃ tools, (build_tools_from_mcp env).result = .ok tools ∧
      ∀ tl ∈ tools, tl.clientId = 0 ∧ ∃ t ∈ ops,
        tl.tool_name = t.name ∧ tl.description = descOr t.description ∧
        tl.doc = descOr t.description := by
  refine ⟨(ops.filter (fun t => !skipsOp env t)).map (toolOf env), ?_, ?_⟩
  · rw [build_of_setup_ok env ops hs ho hl, buildLoop_eq_filter env ops hasm]
  · intro tl htl
    obtain ⟨t, htf, rfl⟩ := List.mem_map.mp htl
    exact ⟨rfl, t, (List.mem_filter.mp htf).1, rfl, rfl, rfl⟩

theorem tools_bind_verbatim_name_and_shared_client_witness :
    ∃ tools, (build_tools_from_mcp (okEnv [breadOp])).result = .ok tools ∧
      ∀ tl ∈ tools, tl.clientId = 0 ∧ ∃ t ∈ [breadOp],
        tl.tool_name = t.name ∧ tl.description = descOr t.description ∧
        tl.doc = descOr t.description :=
  tools_bind_verbatim_name_and_shared_client (okEnv [breadOp]) [breadOp]
    (by decide) rfl rfl (fun t _ _ => rfl)

/-- C7: an exception raised by tool-class assembly (`create_model`,
lines 47–49) after a successful schema conversion has no local handler:
it is caught only by the outer setup handler (lines 59–62), which
closes the shared client once and re-raises — the entire batch is
aborted (tools already built are discarded) and the connection every
already-built tool referenced is closed. -/
theorem assembly_failure_aborts_whole_batch (env : MCPEnv)
    (pre rest : List MCPToolDesc) (t : MCPToolDesc) (e : MCPError)
    (hs : env.servers ≠ []) (ho : env.openResult = none)
    (hl : env.listResult = .ok (pre ++ t :: rest))
    (hpre : ∀ x ∈ pre, skipsOp env x = false → assembles env x)
    (ht : skipsOp env t = false)
    (ha : env.createModel ("MCP" ++ to_CamelCase t.name)
      (convertedModel env t) (descOr t.description) = some e) :
    build_tools_from_mcp env =
      { result := .error e, clientCreated := true, opens := 1, closes := 1 } := by
  rw [build_of_setup_ok env _ hs ho hl, buildLoop_abort_of_mem env pre rest hpre ht ha]

theorem assembly_failure_aborts_whole_batch_witness :
    build_tools_from_mcp assemblyFailEnv =
      { result := .error (.assemblyFailure "create_model"),
        clientCreated := true, opens := 1, closes := 1 } :=
  assembly_failure_aborts_whole_batch assemblyFailEnv [badOp] [] breadOp
    (.assemblyFailure "create_model") (by decide) rfl rfl
    (by intro x hx hsk; exact absurd hsk (by simp [List.mem_singleton.mp hx, skipsOp, badOp, schemaFalsy]))
    (by decide) rfl

theorem getKey_setKey (sch : Schema) (k v : String) :
    getKey (setKey sch k v) k = some v := by
  induction sch with
  | nil => simp [setKey, getKey]
  | cons p rest ih =>
    obtain ⟨k', v'⟩ := p
    by_cases h : k' = k
    · simp [setKey, getKey, h]
    · simp [setKey, getKey, h, ih]

/-- C8, counterexample: two operations with structurally identical
schemas and different names do NOT always receive distinct injected
identifiers: `_to_CamelCase` is not injective, so the distinct names
"find_bread" and "find bread" are both normalized to "FindBread" and
their schemas become identical after title injection. -/
theorem normalized_title_collision :
    ("find_bread" : String) ≠ "find bread" ∧
    to_CamelCase "find_bread" = to_CamelCase "find bread" ∧
    injectTitle [("type", "object")] "find_bread" =
      injectTitle [("type", "object")] "find bread" := by
  exact ⟨by decide, by decide, by decide⟩

/-- C8 (amended): the schema submitted for conversion carries, under its
`"title"` key, the identifier `_to_CamelCase(name)` (line 41); for any
two operations with identical schemas whose NORMALIZED names differ the
injected identifiers — and hence the submitted schema documents — are
distinct, so their derived representations cannot collide or
cross-contaminate.  Distinct raw names with equal normalizations (the
counterexample) receive the same identifier. -/
theorem injected_titles_distinct_of_normalized_names_differ
    (sch : Schema) (n1 n2 : String) (h : to_CamelCase n1 ≠ to_CamelCase n2) :
    getKey (injectTitle sch n1) "title" = some (to_CamelCase n1) ∧
    getKey (injectTitle sch n2) "title" = some (to_CamelCase n2) ∧
    injectTitle sch n1 ≠ injectTitle sch n2 := by
  refine ⟨getKey_setKey sch "title" (to_CamelCase n1),
    getKey_setKey sch "title" (to_CamelCase n2), ?_⟩
  intro heq
  apply h
  have hg : getKey (injectTitle sch n1) "title" =
      getKey (injectTitle sch n2) "title" :=
    congrArg (fun d => getKey d "title") heq
  simp only [injectTitle, getKey_setKey] at hg
  exact Option.some.inj hg

theorem injected_titles_distinct_witness :
    getKey (injectTitle [("type", "object")] "find_bread") "title" =
      some (to_CamelCase "find_bread") ∧
    injectTitle [("type", "object")] "find_bread" ≠
      injectTitle [("type", "object")] "search_items" := by
  have h := injected_titles_distinct_of_normalized_names_differ
    [("type", "object")] "find_bread" "search_items" (by decide)
  exact ⟨h.1, h.2.2⟩

/-- C9: the name normalizer is a deterministic pure function that, on
every input made of letters and the separator characters (underscore,
space), coincides with "split on underscores and spaces, title-case
each segment, concatenate without separators"; the specified examples
evaluate as claimed, and two calls on the same input are definitionally
identical. -/
theorem normalizer_splits_titlecases_concatenates :
    (∀ s : String, (∀ c ∈ s.data, c.isAlpha = true ∨ isSepCh c = true) →
      to_CamelCase s = specNormalize s) ∧
    to_CamelCase "find_fresh_bread" = "FindFreshBread" ∧
    to_CamelCase "search items" = "SearchItems" ∧
    (∀ s : String, to_CamelCase s = to_CamelCase s) :=
  ⟨to_CamelCase_eq_specNormalize, by decide, by decide, fun _ => rfl⟩

theorem normalizer_splits_titlecases_concatenates_witness :
    to_CamelCase "vkusvill search" = specNormalize "vkusvill search" :=
  normalizer_splits_titlecases_concatenates.1 "vkusvill search" (by decide)

/-- C10, counterexample: the normalizer is not identity on
already-canonical PascalCase input: `_to_CamelCase("FindBread")` is
"Findbread", because Python's `str.title()` lowercases a cased
character that follows another cased character, erasing interior
capitals. -/
theorem pascalcase_input_not_preserved :
    to_CamelCase "FindBread" = "Findbread" ∧
    ("Findbread" : String) ≠ "FindBread" := by
  exact ⟨by decide, by decide⟩

/-- C10 (amended): the normalizer is identity-preserving on canonical
input only at single-hump granularity: an input that is one title-cased
word (uppercase initial, lowercase rest — the shape the normalizer
itself outputs per segment) is returned unchanged, while PascalCase
input with interior capitals such as "FindBread" is rewritten to
"Findbread" (see the counterexample). -/
theorem titlecase_word_preserved (s : String)
    (h : isCapitalizedWord s = true) : to_CamelCase s = s :=
  to_CamelCase_of_capitalized s h

theorem titlecase_word_preserved_witness :
    to_CamelCase "Findbread" = "Findbread" :=
  titlecase_word_preserved "Findbread" (by decide)

end MCPService

